import Mathlib

/-!
Verification of the dense-matrix engine and feed-forward network engine
of `src/network.js` (classes `Matrix` and `NNetwork`), as a shallow
embedding in Lean.  Matrix entries are modelled as real numbers; a JS
method that returns `false` on a shape mismatch (and would make the
caller crash when the `false` is used as a matrix) is modelled as an
`Option`-returning function, with `none` for the failure.  `Math.random()`
values are supplied as an explicit stream, one function per randomised
matrix.
-/

namespace JS

open Finset

/-- Model of the JS `Matrix` class: a row count, a column count and the
entry grid (`data[r][c]` becomes `entry r c`; entries outside the grid are
irrelevant junk, every statement below quantifies only over in-range
indices). -/
structure Matrix where
  rows : ℕ
  cols : ℕ
  entry : ℕ → ℕ → ℝ

/-- Default matrix used for out-of-range list indexing (JS would yield
`undefined`; every claim below is proved under hypotheses that keep all
indexing in range). -/
def dummyMat : Matrix := ⟨0, 0, fun _ _ => 0⟩

/-- `xs[i]` on a JS array of matrices. -/
def idx (xs : List Matrix) (i : ℕ) : Matrix := xs.getD i dummyMat

/-- The JS `Matrix` constructor `new Matrix(rows, columns, val)`:
if `val` is `undefined` (`none`) every entry is `Math.random() * 10 - 5`
(the random stream `rng` models the successive `Math.random()` calls,
indexed by position); otherwise every entry is `val`. -/
def Matrix.make (rows cols : ℕ) (val : Option ℝ) (rng : ℕ → ℕ → ℝ) : Matrix :=
  match val with
  | some v => ⟨rows, cols, fun _ _ => v⟩
  | none => ⟨rows, cols, fun r c => rng r c * 10 - 5⟩

/-- `Matrix.prototype.size`. -/
def Matrix.size (m : Matrix) : ℕ × ℕ := (m.rows, m.cols)

/-- `Matrix.prototype.get`. -/
def Matrix.get (m : Matrix) (r c : ℕ) : ℝ := m.entry r c

/-- `Matrix.prototype.set` (functional: returns the updated matrix). -/
def Matrix.set (m : Matrix) (r c : ℕ) (v : ℝ) : Matrix :=
  ⟨m.rows, m.cols, fun i j => if i = r ∧ j = c then v else m.entry i j⟩

/-- `Matrix.prototype.mult`: returns `none` (JS `false`) when
`this.data[0].length !== matB.data.length`, otherwise the triple-loop
product. -/
def Matrix.mult (A B : Matrix) : Option Matrix :=
  if A.cols ≠ B.rows then none
  else some ⟨A.rows, B.cols,
    fun i j => ∑ k in Finset.range A.cols, A.entry i k * B.entry k j⟩

/-- `Matrix.prototype.add`: `none` on any shape mismatch. -/
def Matrix.add (A B : Matrix) : Option Matrix :=
  if A.rows ≠ B.rows ∨ A.cols ≠ B.cols then none
  else some ⟨A.rows, A.cols, fun i j => A.entry i j + B.entry i j⟩

/-- `Matrix.prototype.subtract`: `none` on any shape mismatch. -/
def Matrix.subtract (A B : Matrix) : Option Matrix :=
  if A.rows ≠ B.rows ∨ A.cols ≠ B.cols then none
  else some ⟨A.rows, A.cols, fun i j => A.entry i j - B.entry i j⟩

/-- `Matrix.prototype.hadamard`: `none` on any shape mismatch. -/
def Matrix.hadamard (A B : Matrix) : Option Matrix :=
  if A.rows ≠ B.rows ∨ A.cols ≠ B.cols then none
  else some ⟨A.rows, A.cols, fun i j => A.entry i j * B.entry i j⟩

/-- `Matrix.prototype.scalarMult` (in place in JS; functional here). -/
def Matrix.scalarMult (m : Matrix) (k : ℝ) : Matrix :=
  ⟨m.rows, m.cols, fun i j => m.entry i j * k⟩

/-- `Matrix.prototype.transpose` (replaces the callee's own grid). -/
def Matrix.transpose (m : Matrix) : Matrix :=
  ⟨m.cols, m.rows, fun i j => m.entry j i⟩

/-- `Matrix.prototype.apply`: elementwise map. -/
def Matrix.apply (m : Matrix) (f : ℝ → ℝ) : Matrix :=
  ⟨m.rows, m.cols, fun i j => f (m.entry i j)⟩

/-- `Matrix.prototype.clone`: `m.clone(B)` deep-copies `B`'s grid into `m`,
replacing shape and data wholesale, so the receiver is irrelevant. -/
def Matrix.clone (_ : Matrix) (B : Matrix) : Matrix :=
  ⟨B.rows, B.cols, B.entry⟩

/-- The `sigmoid` function of `src/network.js`. -/
noncomputable def sigmoid (x : ℝ) : ℝ := 1 / (1 + Real.exp (-x))

/-- The `sigPrime` function of `src/network.js`. -/
noncomputable def sigPrime (x : ℝ) : ℝ :=
  Real.exp (-x) / ((Real.exp (-x) + 1) * (Real.exp (-x) + 1))

theorem Matrix.mult_eq_none_iff (A B : Matrix) :
    A.mult B = none ↔ A.cols ≠ B.rows := by
  unfold Matrix.mult
  by_cases h : A.cols ≠ B.rows <;> simp [h]

theorem Matrix.mult_eq_some (A B : Matrix) (h : A.cols = B.rows) :
    A.mult B = some ⟨A.rows, B.cols,
      fun i j => ∑ k in Finset.range A.cols, A.entry i k * B.entry k j⟩ := by
  unfold Matrix.mult
  simp [h]

theorem Matrix.add_eq_none_iff (A B : Matrix) :
    A.add B = none ↔ (A.rows ≠ B.rows ∨ A.cols ≠ B.cols) := by
  unfold Matrix.add
  by_cases h : A.rows ≠ B.rows ∨ A.cols ≠ B.cols <;> simp [h]

theorem Matrix.add_eq_some (A B : Matrix) (h1 : A.rows = B.rows) (h2 : A.cols = B.cols) :
    A.add B = some ⟨A.rows, A.cols, fun i j => A.entry i j + B.entry i j⟩ := by
  unfold Matrix.add
  simp [h1, h2]

theorem Matrix.subtract_eq_none_iff (A B : Matrix) :
    A.subtract B = none ↔ (A.rows ≠ B.rows ∨ A.cols ≠ B.cols) := by
  unfold Matrix.subtract
  by_cases h : A.rows ≠ B.rows ∨ A.cols ≠ B.cols <;> simp [h]

theorem Matrix.subtract_eq_some (A B : Matrix) (h1 : A.rows = B.rows) (h2 : A.cols = B.cols) :
    A.subtract B = some ⟨A.rows, A.cols, fun i j => A.entry i j - B.entry i j⟩ := by
  unfold Matrix.subtract
  simp [h1, h2]

theorem Matrix.hadamard_eq_none_iff (A B : Matrix) :
    A.hadamard B = none ↔ (A.rows ≠ B.rows ∨ A.cols ≠ B.cols) := by
  unfold Matrix.hadamard
  by_cases h : A.rows ≠ B.rows ∨ A.cols ≠ B.cols <;> simp [h]

theorem Matrix.hadamard_eq_some (A B : Matrix) (h1 : A.rows = B.rows) (h2 : A.cols = B.cols) :
    A.hadamard B = some ⟨A.rows, A.cols, fun i j => A.entry i j * B.entry i j⟩ := by
  unfold Matrix.hadamard
  simp [h1, h2]

theorem Matrix.mult_shape (A B C : Matrix) (h : A.mult B = some C) :
    C.rows = A.rows ∧ C.cols = B.cols := by
  unfold Matrix.mult at h
  by_cases hc : A.cols ≠ B.rows
  · simp [hc] at h
  · simp [hc] at h
    subst h
    exact ⟨rfl, rfl⟩

theorem Matrix.add_shape (A B C : Matrix) (h : A.add B = some C) :
    C.rows = A.rows ∧ C.cols = A.cols := by
  unfold Matrix.add at h
  by_cases hc : A.rows ≠ B.rows ∨ A.cols ≠ B.cols
  · simp [hc] at h
  · simp [hc] at h
    subst h
    exact ⟨rfl, rfl⟩

theorem Matrix.subtract_shape (A B C : Matrix) (h : A.subtract B = some C) :
    C.rows = A.rows ∧ C.cols = A.cols := by
  unfold Matrix.subtract at h
  by_cases hc : A.rows ≠ B.rows ∨ A.cols ≠ B.cols
  · simp [hc] at h
  · simp [hc] at h
    subst h
    exact ⟨rfl, rfl⟩

theorem Matrix.hadamard_shape (A B C : Matrix) (h : A.hadamard B = some C) :
    C.rows = A.rows ∧ C.cols = A.cols := by
  unfold Matrix.hadamard at h
  by_cases hc : A.rows ≠ B.rows ∨ A.cols ≠ B.cols
  · simp [hc] at h
  · simp [hc] at h
    subst h
    exact ⟨rfl, rfl⟩

theorem idx_set_self : ∀ (xs : List Matrix) (n : ℕ) (a : Matrix),
    n < xs.length → idx (xs.set n a) n = a
  | _ :: _, 0, _, _ => rfl
  | _ :: xs, n + 1, a, h => idx_set_self xs n a (by simpa using h)

theorem idx_set_ne : ∀ (xs : List Matrix) (n m : ℕ) (a : Matrix),
    m ≠ n → idx (xs.set n a) m = idx xs m
  | [], _, _, _, _ => rfl
  | _ :: _, 0, 0, _, h => absurd rfl h
  | _ :: _, 0, _ + 1, _, _ => rfl
  | _ :: _, _ + 1, 0, _, _ => rfl
  | _ :: xs, n + 1, m + 1, a, h => idx_set_ne xs n m a (fun e => h (by rw [e]))

theorem idx_map_range (f : ℕ → Matrix) (n l : ℕ) (h : l < n) :
    idx ((List.range n).map f) l = f l := by
  unfold idx
  rw [List.getD_eq_getElem _ _ (by simpa using h)]
  simp

theorem idx_replicate (n l : ℕ) (a : Matrix) (h : l < n) :
    idx (List.replicate n a) l = a := by
  unfold idx
  rw [List.getD_eq_getElem _ _ (by simpa using h)]
  simp

/-- Model of the JS `NNetwork` class state (`structure` is a Lean keyword,
so that field is called `struct` here). -/
structure NNetwork where
  struct : List ℕ
  layerCount : ℕ
  α : ℝ
  weights : List Matrix
  biases : List Matrix
  activations : List Matrix
  Z : List Matrix

/-- The `NNetwork` constructor.  `weights[l] = new Matrix(sizes[l+1], sizes[l])`
(no fill value, hence randomised), `activations[l]` and `Z[l]` are zero
column vectors, and (for `l > 0`) `biases` gets `new Matrix(sizes[l], 1)` —
again no fill value, hence randomised by the `Matrix` constructor.  The
streams `wRng l` and `bRng l` model the `Math.random()` calls made for the
`l`-th weight matrix and the `l`-th bias vector respectively. -/
def NNetwork.make (sizes : List ℕ) (wRng bRng : ℕ → ℕ → ℕ → ℝ) : NNetwork :=
  { struct := sizes
    layerCount := sizes.length
    α := 0.01
    weights := (List.range (sizes.length - 1)).map fun l =>
      Matrix.make (sizes.getD (l + 1) 0) (sizes.getD l 0) none (wRng l)
    biases := (List.range (sizes.length - 1)).map fun l =>
      Matrix.make (sizes.getD (l + 1) 0) 1 none (bRng l)
    activations := (List.range sizes.length).map fun l =>
      Matrix.make (sizes.getD l 0) 1 (some 0) fun _ _ => 0
    Z := (List.range sizes.length).map fun l =>
      Matrix.make (sizes.getD l 0) 1 (some 0) fun _ _ => 0 }

/-- `NNetwork.prototype.calculate`.  Returns `some (false, net)` untouched
when `l < 1`; otherwise computes `wa0 = weights[l-1] * activations[l-1]`,
`wab = wa0 + biases[l-1]`, clones `wab` into `Z[l]`, applies `sigmoid` and
stores the result in `activations[l]`.  A shape failure inside (`mult` or
`add` returning JS `false`, which the original would then crash on) is
`none`. -/
noncomputable def NNetwork.calculate (net : NNetwork) (l : ℤ) : Option (Bool × NNetwork) :=
  if l < 1 then some (false, net)
  else
    let ln := l.toNat
    match (idx net.weights (ln - 1)).mult (idx net.activations (ln - 1)) with
    | none => none
    | some wa0 =>
      match wa0.add (idx net.biases (ln - 1)) with
      | none => none
      | some wab =>
        some (true, { net with
          Z := net.Z.set ln ((idx net.Z ln).clone wab)
          activations := net.activations.set ln (wab.apply sigmoid) })

/-- The input-population loop of `forwardProp`:
`for (i = 0; i < n; i++) activations[0].set(i, 0, imgData[input][i])`. -/
def setInputLoop (m : Matrix) (f : ℕ → ℝ) : ℕ → Matrix
  | 0 => m
  | n + 1 => (setInputLoop m f n).set n 0 (f n)

/-- The layer loop of `forwardProp`:
`for (l = 1; l < activations.length; l++) calculate(l)`. -/
noncomputable def NNetwork.forwardLoop (net : NNetwork) (l stop : ℕ) : Option NNetwork :=
  if l < stop then
    match net.calculate (l : ℤ) with
    | none => none
    | some (_, net') => net'.forwardLoop (l + 1) stop
  else some net
termination_by stop - l
decreasing_by omega

/-- `NNetwork.prototype.forwardProp`.  `imgData input i` is the module-level
`imgData[input][i]` (populated from files by `getTrainingData`, outside the
verified core). -/
noncomputable def NNetwork.forwardProp (imgData : ℕ → ℕ → ℝ) (net : NNetwork)
    (input : ℕ) : Option NNetwork :=
  let l0Length := (idx net.activations 0).size.1
  let a0 := setInputLoop (idx net.activations 0) (imgData input) l0Length
  let net1 : NNetwork := { net with activations := net.activations.set 0 a0 }
  net1.forwardLoop 1 net1.activations.length

/-- `NNetwork.prototype.getCost`: mean of the squared differences over the
output layer. -/
noncomputable def NNetwork.getCost (net : NNetwork) (y : Matrix) : ℝ :=
  let layer := net.struct.length - 1
  let nCount := net.struct.getD (net.struct.length - 1) 0
  (∑ n in Finset.range nCount,
    ((idx net.activations layer).get n 0 - y.get n 0) *
      ((idx net.activations layer).get n 0 - y.get n 0)) / (nCount : ℝ)

/-- The `(X, CW, CB)` state threaded through the backward loop of
`backProp`. -/
abbrev BPSt := List Matrix × List Matrix × List Matrix

/-- One iteration of the backward loop of `backProp` at layer `l`
(`for (l = layers - 1; l >= 0; l--)`).  At the top layer,
`X[l] = (2 * (activations[l] - Y)) ⊙ AZ[l]`; otherwise
`X[l] = (weights[l]ᵗ * X[l+1]) ⊙ AZ[l]`, then
`CW[l] = X[l+1] * activations[l]ᵗ` and `CB[l] = X[l+1] ⊙ biases[l]`. -/
def NNetwork.backStep (net : NNetwork) (Y : Matrix) (AZ : List Matrix) (layers : ℕ)
    (l : ℕ) (st : BPSt) : Option BPSt :=
  let X := st.1
  let CW := st.2.1
  let CB := st.2.2
  if l = layers - 1 then
    match (idx net.activations l).subtract Y with
    | none => none
    | some t0 =>
      match (t0.scalarMult 2).hadamard (idx AZ l) with
      | none => none
      | some xl => some (X.set l xl, CW, CB)
  else
    match ((dummyMat.clone (idx net.weights l)).transpose).mult (idx X (l + 1)) with
    | none => none
    | some x1 =>
      match x1.hadamard (idx AZ l) with
      | none => none
      | some xl =>
        let X' := X.set l xl
        match (idx X' (l + 1)).mult ((dummyMat.clone (idx net.activations l)).transpose) with
        | none => none
        | some cw =>
          match (idx X' (l + 1)).hadamard (dummyMat.clone (idx net.biases l)) with
          | none => none
          | some cb => some (X', CW.set l cw, CB.set l cb)

/-- Descending driver for the backward loop: runs `step` at
`n, n - 1, ..., 0` in that order. -/
def backLoopDown (step : ℕ → BPSt → Option BPSt) : ℕ → BPSt → Option BPSt
  | 0, st => step 0 st
  | n + 1, st =>
    match step (n + 1) st with
    | none => none
    | some st' => backLoopDown step n st'

/-- The `AZ` caches built at the start of `backProp`: for every layer `i`,
a fresh `(structure[i], 1)` matrix is cloned from `Z[i]` and mapped through
`sigPrime` in place. -/
noncomputable def AZlist (net : NNetwork) : List Matrix :=
  (List.range net.struct.length).map fun i =>
    ((Matrix.make (net.struct.getD i 0) 1 (some 1) fun _ _ => 0).clone
      (idx net.Z i)).apply sigPrime

/-- The gradient-signal phase of `backProp`: builds `dCdA`, the `AZ` caches,
the initial `X`/`CW`/`CB` lists (`CW`/`CB` slots start as clones of `dCdA`,
`X` slots as JS `undefined`), and runs the backward loop from `layers - 1`
down to `0`. -/
noncomputable def NNetwork.backSignals (net : NNetwork) (Y : Matrix) : Option BPSt :=
  let layers := net.struct.length
  match (idx net.activations (layers - 1)).subtract Y with
  | none => none
  | some dCdA0 =>
    let dCdA := dCdA0.scalarMult 2
    let X0 := List.replicate layers dummyMat
    let CW0 := List.replicate (layers - 1) dCdA
    let CB0 := List.replicate (layers - 1) dCdA
    backLoopDown (net.backStep Y (AZlist net) layers) (layers - 1) (X0, CW0, CB0)

/-- One iteration of the update loop at the end of `backProp`:
`scaledW = (weights[l] clone * α) ⊙ CW[l]; weights[l] -= scaledW;`
`scaledB = (biases[l] clone * α); biases[l] -= scaledB ⊙ CB[l]`. -/
def NNetwork.updateStep (net : NNetwork) (CW CB : List Matrix) (l : ℕ) : Option NNetwork :=
  match ((dummyMat.clone (idx net.weights l)).scalarMult net.α).hadamard (idx CW l) with
  | none => none
  | some scaledW =>
    match (idx net.weights l).subtract scaledW with
    | none => none
    | some w =>
      let net1 : NNetwork := { net with weights := net.weights.set l w }
      match ((dummyMat.clone (idx net1.biases l)).scalarMult net1.α).hadamard (idx CB l) with
      | none => none
      | some sb =>
        match (idx net1.biases l).subtract sb with
        | none => none
        | some b => some { net1 with biases := net1.biases.set l b }

/-- The update loop of `backProp`: `for (l = 0; l < layers - 1; l++)`. -/
def NNetwork.updateLoop (net : NNetwork) (CW CB : List Matrix) (l stop : ℕ) : Option NNetwork :=
  if l < stop then
    match net.updateStep CW CB l with
    | none => none
    | some net' => net'.updateLoop CW CB (l + 1) stop
  else some net
termination_by stop - l
decreasing_by omega

/-- `NNetwork.prototype.backProp`.  `labels index` is the module-level
`labels[index]`.  Builds the one-hot target `Y`, runs the gradient-signal
phase and then the parameter-update loop.  (The `getCost` call in the
source only feeds `console.log`, so it has no effect on the state.) -/
noncomputable def NNetwork.backProp (labels : ℕ → ℕ) (net : NNetwork) (index : ℕ) :
    Option NNetwork :=
  let desired := labels index
  let layers := net.struct.length
  let Y := (Matrix.make (net.struct.getD (layers - 1) 0) 1 (some 0) fun _ _ => 0).set
    desired 0 1
  match net.backSignals Y with
  | none => none
  | some st => net.updateLoop st.2.1 st.2.2 0 (layers - 1)

/-- The shape invariant of the spec:
`weights[l].rows == biases[l].rows == structure[l+1]`,
`weights[l].columns == structure[l]`, `biases[l].columns == 1`, together
with the lengths of the `weights`/`biases` arrays. -/
def ShapeInv (net : NNetwork) : Prop :=
  net.weights.length = net.struct.length - 1 ∧
  net.biases.length = net.struct.length - 1 ∧
  ∀ l, l < net.struct.length - 1 →
    (idx net.weights l).rows = net.struct.getD (l + 1) 0 ∧
    (idx net.weights l).cols = net.struct.getD l 0 ∧
    (idx net.biases l).rows = net.struct.getD (l + 1) 0 ∧
    (idx net.biases l).cols = 1

/-- Full well-formedness: the shape invariant plus the shapes of the
activation and pre-activation caches. -/
def WF (net : NNetwork) : Prop :=
  ShapeInv net ∧
  net.activations.length = net.struct.length ∧
  net.Z.length = net.struct.length ∧
  ∀ l, l < net.struct.length →
    (idx net.activations l).rows = net.struct.getD l 0 ∧
    (idx net.activations l).cols = 1 ∧
    (idx net.Z l).rows = net.struct.getD l 0 ∧
    (idx net.Z l).cols = 1

theorem make_WF (sizes : List ℕ) (wRng bRng : ℕ → ℕ → ℕ → ℝ) :
    WF (NNetwork.make sizes wRng bRng) := by
  refine ⟨⟨by simp [NNetwork.make], by simp [NNetwork.make], ?_⟩,
    by simp [NNetwork.make], by simp [NNetwork.make], ?_⟩
  · intro l hl
    simp only [NNetwork.make] at hl ⊢
    rw [idx_map_range _ _ _ (by simpa using hl), idx_map_range _ _ _ (by simpa using hl)]
    simp [Matrix.make]
  · intro l hl
    simp only [NNetwork.make] at hl ⊢
    rw [idx_map_range _ _ _ (by simpa using hl)]
    simp [Matrix.make]

theorem calculate_spec (net : NNetwork) (l : ℕ) (hWF : WF net) (h1 : 1 ≤ l)
    (hl : l < net.struct.length) :
    ∃ net' : NNetwork,
      net.calculate (l : ℤ) = some (true, net') ∧
      net'.struct = net.struct ∧ net'.weights = net.weights ∧
      net'.biases = net.biases ∧ net'.α = net.α ∧ net'.layerCount = net.layerCount ∧
      net'.activations.length = net.activations.length ∧
      net'.Z.length = net.Z.length ∧
      (∀ m, m ≠ l → idx net'.activations m = idx net.activations m) ∧
      (∀ m, m ≠ l → idx net'.Z m = idx net.Z m) ∧
      (idx net'.Z l).rows = net.struct.getD l 0 ∧ (idx net'.Z l).cols = 1 ∧
      (idx net'.activations l).rows = net.struct.getD l 0 ∧
      (idx net'.activations l).cols = 1 ∧
      (∀ i, (idx net'.Z l).entry i 0 =
        (∑ k in Finset.range (net.struct.getD (l - 1) 0),
          (idx net.weights (l - 1)).entry i k *
            (idx net.activations (l - 1)).entry k 0) +
        (idx net.biases (l - 1)).entry i 0) ∧
      (∀ i j, (idx net'.activations l).entry i j =
        sigmoid ((idx net'.Z l).entry i j)) ∧
      WF net' := by
  obtain ⟨⟨hwlen, hblen, hsh⟩, halen, hzlen, hshapes⟩ := hWF
  have hl1 : l - 1 < net.struct.length - 1 := by omega
  obtain ⟨hwr, hwc, hbr, hbc⟩ := hsh (l - 1) hl1
  obtain ⟨har, harc, _, _⟩ := hshapes (l - 1) (by omega)
  have hll : l - 1 + 1 = l := by omega
  rw [hll] at hwr hbr
  set W := idx net.weights (l - 1) with hW
  set A := idx net.activations (l - 1) with hA
  set B := idx net.biases (l - 1) with hB
  have hmultok : W.cols = A.rows := by rw [hwc, har]
  set wab : Matrix := ⟨W.rows, A.cols, fun i j =>
    (∑ k in Finset.range W.cols, W.entry i k * A.entry k j) + B.entry i j⟩ with hwab
  have heq : net.calculate (l : ℤ) = some (true, { net with
      Z := net.Z.set l ((idx net.Z l).clone wab)
      activations := net.activations.set l (wab.apply sigmoid) }) := by
    unfold NNetwork.calculate
    rw [if_neg (by omega)]
    simp only [Int.toNat_natCast, ← hW, ← hA, ← hB,
      Matrix.mult_eq_some W A hmultok,
      Matrix.add_eq_some (⟨W.rows, A.cols, fun i j =>
          ∑ k in Finset.range W.cols, W.entry i k * A.entry k j⟩ : Matrix) B
        (by rw [hwr, hbr]) (by rw [harc, hbc])]
  refine ⟨_, heq, rfl, rfl, rfl, rfl, rfl, by simp, by simp, ?_, ?_, ?_, ?_, ?_, ?_, ?_, ?_, ?_⟩
  · intro m hm
    exact idx_set_ne _ _ _ _ hm
  · intro m hm
    exact idx_set_ne _ _ _ _ hm
  · rw [idx_set_self _ _ _ (by omega), Matrix.clone, hwab, hwr]
  · rw [idx_set_self _ _ _ (by omega), Matrix.clone, hwab, harc]
  · rw [idx_set_self _ _ _ (by omega), Matrix.apply, hwab, hwr]
  · rw [idx_set_self _ _ _ (by omega), Matrix.apply, hwab, harc]
  · intro i
    rw [idx_set_self _ _ _ (by omega)]
    simp only [Matrix.clone, hwab, hwc]
  · intro i j
    rw [idx_set_self _ _ _ (by omega), idx_set_self _ _ _ (by omega)]
    simp [Matrix.clone, Matrix.apply]
  · refine ⟨⟨hwlen, hblen, hsh⟩, by simpa using halen, by simpa using hzlen, ?_⟩
    intro m hm
    by_cases hml : m = l
    · subst hml
      rw [idx_set_self _ _ _ (by omega), idx_set_self _ _ _ (by omega)]
      simp [Matrix.clone, Matrix.apply, hwab, hwr, harc]
    · rw [idx_set_ne _ _ _ _ hml, idx_set_ne _ _ _ _ hml]
      exact hshapes m hm

theorem setInputLoop_rows (m : Matrix) (f : ℕ → ℝ) :
    ∀ n, (setInputLoop m f n).rows = m.rows
  | 0 => rfl
  | n + 1 => setInputLoop_rows m f n

theorem setInputLoop_cols (m : Matrix) (f : ℕ → ℝ) :
    ∀ n, (setInputLoop m f n).cols = m.cols
  | 0 => rfl
  | n + 1 => setInputLoop_cols m f n

theorem setInputLoop_entry (m : Matrix) (f : ℕ → ℝ) :
    ∀ n i j, (setInputLoop m f n).entry i j =
      if i < n ∧ j = 0 then f i else m.entry i j := by
  intro n
  induction n with
  | zero => simp [setInputLoop]
  | succ n ihn =>
    intro i j
    simp only [setInputLoop, Matrix.set]
    rw [ihn]
    by_cases hij : i = n ∧ j = 0
    · obtain ⟨hi, hj⟩ := hij
      subst hi; subst hj
      simp
    · rw [if_neg hij]
      by_cases hlt : i < n ∧ j = 0
      · rw [if_pos hlt, if_pos ⟨by omega, hlt.2⟩]
      · rw [if_neg hlt, if_neg (by
          intro hc
          rcases hc with ⟨hc1, hc2⟩
          rcases Nat.lt_succ_iff_lt_or_eq.mp hc1 with h | h
          · exact hlt ⟨h, hc2⟩
          · exact hij ⟨h, hc2⟩)]

theorem forwardLoop_spec (L : ℕ) : ∀ (k : ℕ) (net : NNetwork) (l : ℕ),
    net.struct.length = L → WF net → 1 ≤ l → k = L - l →
    ∃ net', net.forwardLoop l L = some net' ∧ WF net' ∧
      net'.struct = net.struct ∧ net'.weights = net.weights ∧
      net'.biases = net.biases ∧ net'.α = net.α ∧ net'.layerCount = net.layerCount ∧
      (∀ m, m < l → idx net'.activations m = idx net.activations m) ∧
      (∀ m, m < l → idx net'.Z m = idx net.Z m) ∧
      (∀ m, l ≤ m → m < L →
        (∀ i, (idx net'.Z m).entry i 0 =
          (∑ k in Finset.range (net.struct.getD (m - 1) 0),
            (idx net'.weights (m - 1)).entry i k *
              (idx net'.activations (m - 1)).entry k 0) +
          (idx net'.biases (m - 1)).entry i 0) ∧
        (∀ i j, (idx net'.activations m).entry i j =
          sigmoid ((idx net'.Z m).entry i j))) := by
  intro k
  induction k with
  | zero =>
    intro net l hL hWF h1 hk
    have hLl : ¬ l < L := by omega
    refine ⟨net, ?_, hWF, rfl, rfl, rfl, rfl, rfl, fun _ _ => rfl, fun _ _ => rfl, ?_⟩
    · unfold NNetwork.forwardLoop
      rw [if_neg hLl]
    · intro m hm1 hm2
      omega
  | succ k ih =>
    intro net l hL hWF h1 hk
    have hlL : l < L := by omega
    obtain ⟨net1, heq1, hs, hw, hb, hα, hlc, hal, hzl, hane, hzne, hzr, hzc, har, hac,
      hzent, haent, hWF1⟩ := calculate_spec net l hWF h1 (by omega)
    obtain ⟨net', heq2, hWF', hs', hw', hb', hα', hlc', hane', hzne', hform'⟩ :=
      ih net1 (l + 1) (by rw [hs, hL]) hWF1 (by omega) (by omega)
    refine ⟨net', ?_, hWF', by rw [hs', hs], by rw [hw', hw], by rw [hb', hb],
      by rw [hα', hα], by rw [hlc', hlc], ?_, ?_, ?_⟩
    · unfold NNetwork.forwardLoop
      rw [if_pos hlL, heq1]
      exact heq2
    · intro m hm
      rw [hane' m (by omega), hane m (by omega)]
    · intro m hm
      rw [hzne' m (by omega), hzne m (by omega)]
    · intro m hm1 hm2
      by_cases hml : m = l
      · subst hml
        constructor
        · intro i
          rw [hzne' m (by omega), hw', hw, hane' (m - 1) (by omega),
            hane (m - 1) (by omega), hb', hb]
          exact hzent i
        · intro i j
          rw [hane' m (by omega), hzne' m (by omega)]
          exact haent i j
      · have hform := hform' m (by omega) hm2
        rw [hs] at hform
        exact hform

theorem forwardProp_spec (imgData : ℕ → ℕ → ℝ) (net : NNetwork) (input : ℕ)
    (hWF : WF net) (hL : 1 ≤ net.struct.length) :
    ∃ net', net.forwardProp imgData input = some net' ∧ WF net' ∧
      net'.struct = net.struct ∧ net'.weights = net.weights ∧
      net'.biases = net.biases ∧ net'.α = net.α ∧ net'.layerCount = net.layerCount ∧
      (∀ i j, (idx net'.activations 0).entry i j =
        if i < net.struct.getD 0 0 ∧ j = 0 then imgData input i
        else (idx net.activations 0).entry i j) ∧
      (∀ m, 1 ≤ m → m < net.struct.length →
        (∀ i, (idx net'.Z m).entry i 0 =
          (∑ k in Finset.range (net.struct.getD (m - 1) 0),
            (idx net'.weights (m - 1)).entry i k *
              (idx net'.activations (m - 1)).entry k 0) +
          (idx net'.biases (m - 1)).entry i 0) ∧
        (∀ i j, (idx net'.activations m).entry i j =
          sigmoid ((idx net'.Z m).entry i j))) := by
  obtain ⟨⟨hwlen, hblen, hsh⟩, halen, hzlen, hshapes⟩ := hWF
  obtain ⟨ha0r, ha0c, _, _⟩ := hshapes 0 (by omega)
  set n0 := (idx net.activations 0).size.1 with hn0
  set a0 := setInputLoop (idx net.activations 0) (imgData input) n0 with ha0
  set net1 : NNetwork := { net with activations := net.activations.set 0 a0 } with hnet1
  have hWF1 : WF net1 := by
    refine ⟨⟨hwlen, hblen, hsh⟩, by simpa using halen, hzlen, ?_⟩
    intro m hm
    by_cases hm0 : m = 0
    · subst hm0
      have : idx net1.activations 0 = a0 := idx_set_self _ _ _ (by omega)
      rw [show net1.Z = net.Z from rfl, this, ha0]
      rw [setInputLoop_rows, setInputLoop_cols]
      exact ⟨ha0r, ha0c, (hshapes 0 (by omega)).2.2⟩
    · have : idx net1.activations m = idx net.activations m := idx_set_ne _ _ _ _ hm0
      rw [show net1.Z = net.Z from rfl, this]
      exact hshapes m hm
  have hlen1 : net1.activations.length = net.struct.length := by simpa using halen
  obtain ⟨net', heq, hWF', hs', hw', hb', hα', hlc', hane', hzne', hform'⟩ :=
    forwardLoop_spec net.struct.length (net.struct.length - 1) net1 1 rfl hWF1
      (by omega) (by omega)
  refine ⟨net', ?_, hWF', hs', hw', hb', hα', hlc', ?_, ?_⟩
  · show net1.forwardLoop 1 net1.activations.length = some net'
    rw [hlen1]
    exact heq
  · intro i j
    rw [hane' 0 (by omega), idx_set_self _ _ _ (by omega), ha0, setInputLoop_entry,
      hn0, Matrix.size, ha0r]
  · intro m hm1 hm2
    exact hform' m hm1 hm2

theorem AZlist_idx (net : NNetwork) (l : ℕ) (h : l < net.struct.length) :
    idx (AZlist net) l = ⟨(idx net.Z l).rows, (idx net.Z l).cols,
      fun i j => sigPrime ((idx net.Z l).entry i j)⟩ := by
  unfold AZlist
  rw [idx_map_range _ _ _ h]
  rfl

/-- Correctness of one slot of the error-signal list `X`:
the slot has the layer's column shape and carries the claimed formula
(output seed at the top layer, transposed-weight back-projection below). -/
def XOK (net : NNetwork) (Y : Matrix) (layers : ℕ) (X : List Matrix) (m : ℕ) : Prop :=
  (idx X m).rows = net.struct.getD m 0 ∧ (idx X m).cols = 1 ∧
  ∀ i, (idx X m).entry i 0 =
    if m = layers - 1 then
      ((idx net.activations m).entry i 0 - Y.entry i 0) * 2 *
        sigPrime ((idx net.Z m).entry i 0)
    else
      (∑ k in Finset.range (net.struct.getD (m + 1) 0),
        (idx net.weights m).entry k i * (idx X (m + 1)).entry k 0) *
        sigPrime ((idx net.Z m).entry i 0)

/-- Correctness of one slot of the weight-gradient list `CW`: the outer
product `X[m+1] * activations[m]ᵗ`, with the shape of `weights[m]`. -/
def CWOK (net : NNetwork) (X CW : List Matrix) (m : ℕ) : Prop :=
  (idx CW m).rows = net.struct.getD (m + 1) 0 ∧
  (idx CW m).cols = net.struct.getD m 0 ∧
  ∀ i j, (idx CW m).entry i j =
    (idx X (m + 1)).entry i 0 * (idx net.activations m).entry j 0

/-- Correctness of one slot of the bias-gradient list `CB`: the Hadamard
product `X[m+1] ⊙ biases[m]`. -/
def CBOK (net : NNetwork) (X CB : List Matrix) (m : ℕ) : Prop :=
  (idx CB m).rows = net.struct.getD (m + 1) 0 ∧ (idx CB m).cols = 1 ∧
  ∀ i, (idx CB m).entry i 0 =
    (idx X (m + 1)).entry i 0 * (idx net.biases m).entry i 0

theorem backStep_top_spec (net : NNetwork) (Y : Matrix) (layers : ℕ)
    (hWF : WF net) (hlay : layers = net.struct.length) (h2 : 2 ≤ layers)
    (hY1 : Y.rows = net.struct.getD (layers - 1) 0) (hY2 : Y.cols = 1)
    (X CW CB : List Matrix) (hXlen : X.length = layers) :
    ∃ xl, net.backStep Y (AZlist net) layers (layers - 1) (X, CW, CB) =
        some (X.set (layers - 1) xl, CW, CB) ∧
      XOK net Y layers (X.set (layers - 1) xl) (layers - 1) := by
  obtain ⟨_, _, _, hshapes⟩ := hWF
  have hlt : layers - 1 < net.struct.length := by omega
  obtain ⟨har, hac, hzr, hzc⟩ := hshapes (layers - 1) hlt
  set l := layers - 1 with hldef
  set A := idx net.activations l with hA
  set Z0 := idx net.Z l with hZ0
  have hsub : A.subtract Y = some ⟨A.rows, A.cols,
      fun i j => A.entry i j - Y.entry i j⟩ :=
    Matrix.subtract_eq_some A Y (by rw [har, hY1]) (by rw [hac, hY2])
  have hhad : ((⟨A.rows, A.cols, fun i j => A.entry i j - Y.entry i j⟩ :
      Matrix).scalarMult 2).hadamard (idx (AZlist net) l) =
      some ⟨A.rows, A.cols, fun i j =>
        (A.entry i j - Y.entry i j) * 2 * sigPrime (Z0.entry i j)⟩ := by
    rw [AZlist_idx net l hlt, ← hZ0]
    rw [Matrix.hadamard_eq_some _ _ (by simp [Matrix.scalarMult, har, hzr])
      (by simp [Matrix.scalarMult, hac, hzc])]
    rfl
  refine ⟨⟨A.rows, A.cols, fun i j =>
      (A.entry i j - Y.entry i j) * 2 * sigPrime (Z0.entry i j)⟩, ?_, ?_⟩
  · unfold NNetwork.backStep
    rw [if_pos rfl]
    simp only [← hA, hsub, hhad]
  · refine ⟨?_, ?_, ?_⟩
    · rw [idx_set_self _ _ _ (by omega), har]
    · rw [idx_set_self _ _ _ (by omega), hac]
    · intro i
      rw [idx_set_self _ _ _ (by omega), if_pos rfl]

theorem backStep_else_spec (net : NNetwork) (Y : Matrix) (layers : ℕ)
    (hWF : WF net) (hlay : layers = net.struct.length) (l : ℕ) (hl : l < layers - 1)
    (X CW CB : List Matrix) (hXlen : X.length = layers)
    (hCWlen : CW.length = layers - 1) (hCBlen : CB.length = layers - 1)
    (hX1r : (idx X (l + 1)).rows = net.struct.getD (l + 1) 0)
    (hX1c : (idx X (l + 1)).cols = 1) :
    ∃ xl cw cb, net.backStep Y (AZlist net) layers l (X, CW, CB) =
        some (X.set l xl, CW.set l cw, CB.set l cb) ∧
      XOK net Y layers (X.set l xl) l ∧
      CWOK net (X.set l xl) (CW.set l cw) l ∧
      CBOK net (X.set l xl) (CB.set l cb) l := by
  obtain ⟨⟨hwlen, hblen, hsh⟩, halen, hzlen, hshapes⟩ := hWF
  have hlt : l < net.struct.length := by omega
  obtain ⟨hwr, hwc, hbr, hbc⟩ := hsh l (by omega)
  obtain ⟨har, hac, hzr, hzc⟩ := hshapes l hlt
  set W := idx net.weights l with hW
  set A := idx net.activations l with hA
  set B := idx net.biases l with hB
  set Z0 := idx net.Z l with hZ0
  set X1 := idx X (l + 1) with hX1
  have hne : ¬ l = layers - 1 := by omega
  set xl : Matrix := ⟨W.cols, X1.cols, fun i j =>
    (∑ k in Finset.range W.rows, W.entry k i * X1.entry k j) *
      sigPrime (Z0.entry i j)⟩ with hxl
  set cw : Matrix := ⟨X1.rows, A.rows, fun i j =>
    ∑ k in Finset.range X1.cols, X1.entry i k * A.entry j k⟩ with hcw
  set cb : Matrix := ⟨X1.rows, X1.cols, fun i j =>
    X1.entry i j * B.entry i j⟩ with hcb
  have hmult : ((dummyMat.clone W).transpose).mult X1 =
      some ⟨W.cols, X1.cols, fun i j =>
        ∑ k in Finset.range W.rows, W.entry k i * X1.entry k j⟩ := by
    rw [Matrix.mult_eq_some _ _ (by simp [Matrix.clone, Matrix.transpose, hwr, hX1r])]
    rfl
  have hhad : (⟨W.cols, X1.cols, fun i j =>
      ∑ k in Finset.range W.rows, W.entry k i * X1.entry k j⟩ :
        Matrix).hadamard (idx (AZlist net) l) = some xl := by
    rw [AZlist_idx net l hlt, ← hZ0]
    rw [Matrix.hadamard_eq_some _ _ (by simp [hwc, hzr]) (by simp [hX1c, hzc])]
  have hX'1 : idx (X.set l xl) (l + 1) = X1 := by
    rw [idx_set_ne _ _ _ _ (by omega)]
  have hmult2 : (idx (X.set l xl) (l + 1)).mult ((dummyMat.clone A).transpose) =
      some cw := by
    rw [hX'1, Matrix.mult_eq_some _ _ (by simp [Matrix.clone, Matrix.transpose, hX1c, hac])]
    rfl
  have hhad2 : (idx (X.set l xl) (l + 1)).hadamard (dummyMat.clone B) = some cb := by
    rw [hX'1, Matrix.hadamard_eq_some _ _ (by simp [Matrix.clone, hX1r, hbr])
      (by simp [Matrix.clone, hX1c, hbc])]
    rfl
  refine ⟨xl, cw, cb, ?_, ?_, ?_, ?_⟩
  · unfold NNetwork.backStep
    rw [if_neg hne]
    simp only [← hW, ← hA, ← hB, hmult, hhad, hmult2, hhad2]
  · refine ⟨?_, ?_, ?_⟩
    · rw [idx_set_self _ _ _ (by omega), hxl]
      exact hwc
    · rw [idx_set_self _ _ _ (by omega), hxl]
      exact hX1c
    · intro i
      rw [idx_set_self _ _ _ (by omega), if_neg hne, hX'1]
      show (∑ k in Finset.range W.rows, W.entry k i * X1.entry k 0) *
          sigPrime (Z0.entry i 0) =
        (∑ k in Finset.range (net.struct.getD (l + 1) 0),
          W.entry k i * X1.entry k 0) * sigPrime (Z0.entry i 0)
      rw [hwr]
  · refine ⟨?_, ?_, ?_⟩
    · rw [idx_set_self _ _ _ (by omega), hcw, hX1r]
    · rw [idx_set_self _ _ _ (by omega), hcw, har]
    · intro i j
      rw [idx_set_self _ _ _ (by omega), hX'1, hcw]
      show ∑ k in Finset.range X1.cols, X1.entry i k * A.entry j k =
        X1.entry i 0 * A.entry j 0
      rw [hX1c]
      simp
  · refine ⟨?_, ?_, ?_⟩
    · rw [idx_set_self _ _ _ (by omega), hcb, hX1r]
    · rw [idx_set_self _ _ _ (by omega), hcb, hX1c]
    · intro i
      rw [idx_set_self _ _ _ (by omega), hX'1, hcb]

theorem XOK_transport (net : NNetwork) (Y : Matrix) (layers : ℕ)
    (X X' : List Matrix) (m : ℕ) (h1 : idx X' m = idx X m)
    (h2 : idx X' (m + 1) = idx X (m + 1)) :
    XOK net Y layers X m → XOK net Y layers X' m := by
  intro h
  obtain ⟨hr, hc, he⟩ := h
  refine ⟨by rw [h1]; exact hr, by rw [h1]; exact hc, ?_⟩
  intro i
  rw [h1, h2]
  exact he i

theorem CWOK_transport (net : NNetwork) (X X' CW CW' : List Matrix) (m : ℕ)
    (h1 : idx CW' m = idx CW m) (h2 : idx X' (m + 1) = idx X (m + 1)) :
    CWOK net X CW m → CWOK net X' CW' m := by
  intro h
  obtain ⟨hr, hc, he⟩ := h
  refine ⟨by rw [h1]; exact hr, by rw [h1]; exact hc, ?_⟩
  intro i j
  rw [h1, h2]
  exact he i j

theorem CBOK_transport (net : NNetwork) (X X' CB CB' : List Matrix) (m : ℕ)
    (h1 : idx CB' m = idx CB m) (h2 : idx X' (m + 1) = idx X (m + 1)) :
    CBOK net X CB m → CBOK net X' CB' m := by
  intro h
  obtain ⟨hr, hc, he⟩ := h
  refine ⟨by rw [h1]; exact hr, by rw [h1]; exact hc, ?_⟩
  intro i
  rw [h1, h2]
  exact he i

theorem backLoopDown_succ (step : ℕ → BPSt → Option BPSt) (n : ℕ) (st st' : BPSt)
    (h : step (n + 1) st = some st') :
    backLoopDown step (n + 1) st = backLoopDown step n st' := by
  show (match step (n + 1) st with
    | none => none
    | some s => backLoopDown step n s) = backLoopDown step n st'
  rw [h]

theorem backLoopDown_spec (net : NNetwork) (Y : Matrix) (layers : ℕ)
    (hWF : WF net) (hlay : layers = net.struct.length) (h2 : 2 ≤ layers)
    (hY1 : Y.rows = net.struct.getD (layers - 1) 0) (hY2 : Y.cols = 1) :
    ∀ (n : ℕ), n ≤ layers - 1 → ∀ (X CW CB : List Matrix),
      X.length = layers → CW.length = layers - 1 → CB.length = layers - 1 →
      (∀ m, n < m → m ≤ layers - 1 → XOK net Y layers X m) →
      ∃ X' CW' CB',
        backLoopDown (net.backStep Y (AZlist net) layers) n (X, CW, CB) =
          some (X', CW', CB') ∧
        X'.length = layers ∧ CW'.length = layers - 1 ∧ CB'.length = layers - 1 ∧
        (∀ m, m ≤ layers - 1 → XOK net Y layers X' m) ∧
        (∀ m, m ≤ n → m < layers - 1 →
          CWOK net X' CW' m ∧ CBOK net X' CB' m) ∧
        (∀ m, n < m → idx X' m = idx X m) ∧
        (∀ m, n < m → idx CW' m = idx CW m) ∧
        (∀ m, n < m → idx CB' m = idx CB m) := by
  intro n
  induction n with
  | zero =>
    intro _ X CW CB hXlen hCWlen hCBlen hX
    obtain ⟨xl, cw, cb, heq, hXok, hCWok, hCBok⟩ :=
      backStep_else_spec net Y layers hWF hlay 0 (by omega) X CW CB hXlen hCWlen hCBlen
        (hX 1 (by omega) (by omega)).1 (hX 1 (by omega) (by omega)).2.1
    refine ⟨X.set 0 xl, CW.set 0 cw, CB.set 0 cb, heq, by simp [hXlen],
      by simp [hCWlen], by simp [hCBlen], ?_, ?_, ?_, ?_, ?_⟩
    · intro m hm
      by_cases hm0 : m = 0
      · subst hm0
        exact hXok
      · exact XOK_transport net Y layers X _ m
          (idx_set_ne _ _ _ _ (by omega)) (idx_set_ne _ _ _ _ (by omega))
          (hX m (by omega) hm)
    · intro m hm hm'
      have hm0 : m = 0 := by omega
      subst hm0
      exact ⟨hCWok, hCBok⟩
    · intro m hm
      exact idx_set_ne _ _ _ _ (by omega)
    · intro m hm
      exact idx_set_ne _ _ _ _ (by omega)
    · intro m hm
      exact idx_set_ne _ _ _ _ (by omega)
  | succ n ih =>
    intro hn X CW CB hXlen hCWlen hCBlen hX
    by_cases htop : n + 1 = layers - 1
    · obtain ⟨xl, heq, hXok⟩ :=
        backStep_top_spec net Y layers hWF hlay h2 hY1 hY2 X CW CB hXlen
      have hpre : ∀ m, n < m → m ≤ layers - 1 →
          XOK net Y layers (X.set (layers - 1) xl) m := by
        intro m hm hm'
        have hm1 : m = layers - 1 := by omega
        subst hm1
        exact hXok
      obtain ⟨X', CW', CB', heq', hXlen', hCWlen', hCBlen', hXok', hCWok', hpX, hpCW, hpCB⟩ :=
        ih (by omega) (X.set (layers - 1) xl) CW CB (by simp [hXlen]) hCWlen hCBlen hpre
      refine ⟨X', CW', CB', ?_, hXlen', hCWlen', hCBlen', hXok', ?_, ?_, ?_, ?_⟩
      · rw [backLoopDown_succ _ n (X, CW, CB) (X.set (layers - 1) xl, CW, CB)
          (by rw [htop]; exact heq)]
        exact heq'
      · intro m hm hm'
        exact hCWok' m (by omega) hm'
      · intro m hm
        rw [hpX m (by omega), idx_set_ne _ _ _ _ (by omega)]
      · intro m hm
        exact hpCW m (by omega)
      · intro m hm
        exact hpCB m (by omega)
    · have hlt : n + 1 < layers - 1 := by omega
      obtain ⟨xl, cw, cb, heq, hXok, hCWok, hCBok⟩ :=
        backStep_else_spec net Y layers hWF hlay (n + 1) hlt X CW CB hXlen hCWlen hCBlen
          (hX (n + 2) (by omega) (by omega)).1 (hX (n + 2) (by omega) (by omega)).2.1
      have hpre : ∀ m, n < m → m ≤ layers - 1 →
          XOK net Y layers (X.set (n + 1) xl) m := by
        intro m hm hm'
        by_cases hmn : m = n + 1
        · subst hmn
          exact hXok
        · exact XOK_transport net Y layers X _ m
            (idx_set_ne _ _ _ _ (by omega)) (idx_set_ne _ _ _ _ (by omega))
            (hX m (by omega) hm')
      obtain ⟨X', CW', CB', heq', hXlen', hCWlen', hCBlen', hXok', hCWok', hpX, hpCW, hpCB⟩ :=
        ih (by omega) (X.set (n + 1) xl) (CW.set (n + 1) cw) (CB.set (n + 1) cb)
          (by simp [hXlen]) (by simp [hCWlen]) (by simp [hCBlen]) hpre
      refine ⟨X', CW', CB', ?_, hXlen', hCWlen', hCBlen', hXok', ?_, ?_, ?_, ?_⟩
      · rw [backLoopDown_succ _ n (X, CW, CB) _ heq]
        exact heq'
      · intro m hm hm'
        by_cases hmn : m = n + 1
        · subst hmn
          refine ⟨CWOK_transport net _ X' _ CW' (n + 1) (hpCW (n + 1) (by omega))
              (hpX (n + 2) (by omega)) hCWok,
            CBOK_transport net _ X' _ CB' (n + 1) (hpCB (n + 1) (by omega))
              (hpX (n + 2) (by omega)) hCBok⟩
        · exact hCWok' m (by omega) hm'
      · intro m hm
        rw [hpX m (by omega), idx_set_ne _ _ _ _ (by omega)]
      · intro m hm
        rw [hpCW m (by omega), idx_set_ne _ _ _ _ (by omega)]
      · intro m hm
        rw [hpCB m (by omega), idx_set_ne _ _ _ _ (by omega)]

theorem backSignals_spec (net : NNetwork) (Y : Matrix) (hWF : WF net)
    (h2 : 2 ≤ net.struct.length)
    (hY1 : Y.rows = net.struct.getD (net.struct.length - 1) 0) (hY2 : Y.cols = 1) :
    ∃ X CW CB, net.backSignals Y = some (X, CW, CB) ∧
      X.length = net.struct.length ∧
      CW.length = net.struct.length - 1 ∧ CB.length = net.struct.length - 1 ∧
      (∀ m, m ≤ net.struct.length - 1 → XOK net Y net.struct.length X m) ∧
      (∀ m, m < net.struct.length - 1 → CWOK net X CW m ∧ CBOK net X CB m) := by
  have hshapes := hWF.2.2.2
  obtain ⟨har, hac, _, _⟩ := hshapes (net.struct.length - 1) (by omega)
  set layers := net.struct.length with hlay
  set A := idx net.activations (layers - 1) with hA
  have hsub : A.subtract Y = some ⟨A.rows, A.cols,
      fun i j => A.entry i j - Y.entry i j⟩ :=
    Matrix.subtract_eq_some A Y (by rw [har, hY1]) (by rw [hac, hY2])
  set dCdA : Matrix := (⟨A.rows, A.cols,
    fun i j => A.entry i j - Y.entry i j⟩ : Matrix).scalarMult 2 with hd
  obtain ⟨X', CW', CB', heq, hXlen, hCWlen, hCBlen, hXok, hCWok, _, _, _⟩ :=
    backLoopDown_spec net Y layers hWF hlay h2 hY1 hY2 (layers - 1) (le_refl _)
      (List.replicate layers dummyMat) (List.replicate (layers - 1) dCdA)
      (List.replicate (layers - 1) dCdA) (by simp) (by simp) (by simp)
      (by intro m hm hm'; omega)
  refine ⟨X', CW', CB', ?_, hXlen, hCWlen, hCBlen, hXok, fun m hm => hCWok m (by omega) hm⟩
  unfold NNetwork.backSignals
  simp only [← hlay, ← hA, hsub, ← hd]
  exact heq

theorem updateStep_spec (net : NNetwork) (CW CB : List Matrix) (l : ℕ)
    (hWF : WF net) (hl : l < net.struct.length - 1)
    (hcwr : (idx CW l).rows = net.struct.getD (l + 1) 0)
    (hcwc : (idx CW l).cols = net.struct.getD l 0)
    (hcbr : (idx CB l).rows = net.struct.getD (l + 1) 0)
    (hcbc : (idx CB l).cols = 1) :
    ∃ net', net.updateStep CW CB l = some net' ∧ WF net' ∧
      net'.struct = net.struct ∧ net'.α = net.α ∧
      net'.activations = net.activations ∧ net'.Z = net.Z ∧
      net'.layerCount = net.layerCount ∧
      net'.weights.length = net.weights.length ∧
      net'.biases.length = net.biases.length ∧
      (∀ m, m ≠ l → idx net'.weights m = idx net.weights m) ∧
      (∀ m, m ≠ l → idx net'.biases m = idx net.biases m) ∧
      (idx net'.weights l).rows = (idx net.weights l).rows ∧
      (idx net'.weights l).cols = (idx net.weights l).cols ∧
      (idx net'.biases l).rows = (idx net.biases l).rows ∧
      (idx net'.biases l).cols = (idx net.biases l).cols ∧
      (∀ i j, (idx net'.weights l).entry i j =
        (idx net.weights l).entry i j -
          (idx net.weights l).entry i j * net.α * (idx CW l).entry i j) ∧
      (∀ i j, (idx net'.biases l).entry i j =
        (idx net.biases l).entry i j -
          (idx net.biases l).entry i j * net.α * (idx CB l).entry i j) := by
  obtain ⟨⟨hwlen, hblen, hsh⟩, halen, hzlen, hshapes⟩ := hWF
  obtain ⟨hwr, hwc, hbr, hbc⟩ := hsh l hl
  set W := idx net.weights l with hW
  set B := idx net.biases l with hB
  set w1 : Matrix := ⟨W.rows, W.cols, fun i j =>
    W.entry i j - W.entry i j * net.α * (idx CW l).entry i j⟩ with hw1
  set b1 : Matrix := ⟨B.rows, B.cols, fun i j =>
    B.entry i j - B.entry i j * net.α * (idx CB l).entry i j⟩ with hb1
  have hhadW : ((dummyMat.clone W).scalarMult net.α).hadamard (idx CW l) =
      some ⟨W.rows, W.cols, fun i j =>
        W.entry i j * net.α * (idx CW l).entry i j⟩ := by
    rw [Matrix.hadamard_eq_some _ _ (by simp [Matrix.clone, Matrix.scalarMult, hwr, hcwr])
      (by simp [Matrix.clone, Matrix.scalarMult, hwc, hcwc])]
    rfl
  have hsubW : W.subtract (⟨W.rows, W.cols, fun i j =>
      W.entry i j * net.α * (idx CW l).entry i j⟩ : Matrix) = some w1 :=
    Matrix.subtract_eq_some _ _ (by simp) (by simp)
  set net1 : NNetwork := { net with weights := net.weights.set l w1 } with hnet1
  have hBn : idx net1.biases l = B := by rw [hnet1]
  have hhadB : ((dummyMat.clone (idx net1.biases l)).scalarMult net1.α).hadamard
      (idx CB l) = some ⟨B.rows, B.cols, fun i j =>
        B.entry i j * net.α * (idx CB l).entry i j⟩ := by
    rw [hBn]
    rw [Matrix.hadamard_eq_some _ _ (by simp [Matrix.clone, Matrix.scalarMult, hbr, hcbr])
      (by simp [Matrix.clone, Matrix.scalarMult, hbc, hcbc])]
    rfl
  have hsubB : (idx net1.biases l).subtract (⟨B.rows, B.cols, fun i j =>
      B.entry i j * net.α * (idx CB l).entry i j⟩ : Matrix) = some b1 := by
    rw [hBn]
    exact Matrix.subtract_eq_some _ _ (by simp) (by simp)
  refine ⟨{ net1 with biases := net1.biases.set l b1 }, ?_, ?_, rfl, rfl, rfl, rfl, rfl,
    by simp [hnet1], by simp [hnet1], ?_, ?_, ?_, ?_, ?_, ?_, ?_, ?_⟩
  · unfold NNetwork.updateStep
    simp only [← hW, hhadW, hsubW, ← hnet1, hhadB, hsubB]
  · refine ⟨⟨by simp [hnet1, hwlen], by simp [hnet1, hblen], ?_⟩,
      by simp [hnet1, halen], by simp [hnet1, hzlen], hshapes⟩
    intro m hm
    by_cases hml : m = l
    · subst hml
      show (idx ((net.weights.set m w1)) m).rows = _ ∧ _
      rw [idx_set_self _ _ _ (by omega), idx_set_self _ _ _ (by simp only [hnet1]; omega)]
      exact ⟨by rw [hw1]; exact hwr, by rw [hw1]; exact hwc,
        by rw [hb1]; exact hbr, by rw [hb1]; exact hbc⟩
    · show (idx ((net.weights.set l w1)) m).rows = _ ∧ _
      rw [idx_set_ne _ _ _ _ hml, idx_set_ne _ _ _ _ hml]
      exact hsh m hm
  · intro m hm
    show idx (net.weights.set l w1) m = _
    exact idx_set_ne _ _ _ _ hm
  · intro m hm
    show idx (net.biases.set l b1) m = _
    exact idx_set_ne _ _ _ _ hm
  · show (idx (net.weights.set l w1) l).rows = _
    rw [idx_set_self _ _ _ (by omega)]
  · show (idx (net.weights.set l w1) l).cols = _
    rw [idx_set_self _ _ _ (by omega)]
  · show (idx (net.biases.set l b1) l).rows = _
    rw [idx_set_self _ _ _ (by omega)]
  · show (idx (net.biases.set l b1) l).cols = _
    rw [idx_set_self _ _ _ (by omega)]
  · intro i j
    show (idx (net.weights.set l w1) l).entry i j = _
    rw [idx_set_self _ _ _ (by omega)]
  · intro i j
    show (idx (net.biases.set l b1) l).entry i j = _
    rw [idx_set_self _ _ _ (by omega)]

theorem updateLoop_spec : ∀ (k : ℕ) (net : NNetwork) (CW CB : List Matrix) (l stop : ℕ),
    WF net → stop = net.struct.length - 1 →
    (∀ m, m < stop → (idx CW m).rows = net.struct.getD (m + 1) 0 ∧
      (idx CW m).cols = net.struct.getD m 0 ∧
      (idx CB m).rows = net.struct.getD (m + 1) 0 ∧ (idx CB m).cols = 1) →
    k = stop - l →
    ∃ net', net.updateLoop CW CB l stop = some net' ∧ WF net' ∧
      net'.struct = net.struct ∧ net'.α = net.α ∧
      net'.activations = net.activations ∧ net'.Z = net.Z ∧
      net'.layerCount = net.layerCount ∧
      (∀ m, m < l ∨ stop ≤ m → idx net'.weights m = idx net.weights m ∧
        idx net'.biases m = idx net.biases m) ∧
      (∀ m, l ≤ m → m < stop →
        (∀ i j, (idx net'.weights m).entry i j =
          (idx net.weights m).entry i j -
            (idx net.weights m).entry i j * net.α * (idx CW m).entry i j) ∧
        (∀ i j, (idx net'.biases m).entry i j =
          (idx net.biases m).entry i j -
            (idx net.biases m).entry i j * net.α * (idx CB m).entry i j)) := by
  intro k
  induction k with
  | zero =>
    intro net CW CB l stop hWF hstop hsh hk
    refine ⟨net, ?_, hWF, rfl, rfl, rfl, rfl, rfl, fun m _ => ⟨rfl, rfl⟩, ?_⟩
    · unfold NNetwork.updateLoop
      rw [if_neg (by omega)]
    · intro m hm1 hm2
      omega
  | succ k ih =>
    intro net CW CB l stop hWF hstop hsh hk
    have hls : l < stop := by omega
    obtain ⟨hcwr, hcwc, hcbr, hcbc⟩ := hsh l hls
    obtain ⟨net1, heq1, hWF1, hs1, hα1, ha1, hz1, hlc1, hwl1, hbl1, hwm1, hbm1,
      hwr1, hwc1, hbr1, hbc1, hwe1, hbe1⟩ :=
      updateStep_spec net CW CB l hWF (by omega) hcwr hcwc hcbr hcbc
    obtain ⟨net', heq2, hWF', hs', hα', ha', hz', hlc', hunch', hform'⟩ :=
      ih net1 CW CB (l + 1) stop hWF1 (by rw [hs1]; exact hstop)
        (by rw [hs1]; exact hsh) (by omega)
    refine ⟨net', ?_, hWF', by rw [hs', hs1], by rw [hα', hα1],
      by rw [ha', ha1], by rw [hz', hz1], by rw [hlc', hlc1], ?_, ?_⟩
    · unfold NNetwork.updateLoop
      rw [if_pos hls, heq1]
      exact heq2
    · intro m hm
      obtain ⟨hw', hb'⟩ := hunch' m (by omega)
      rw [hw', hb', hwm1 m (by omega), hbm1 m (by omega)]
      exact ⟨rfl, rfl⟩
    · intro m hm1 hm2
      by_cases hml : m = l
      · subst hml
        obtain ⟨hw', hb'⟩ := hunch' m (by omega)
        rw [hw', hb']
        exact ⟨hwe1, hbe1⟩
      · obtain ⟨hfw, hfb⟩ := hform' m (by omega) hm2
        constructor
        · intro i j
          rw [hfw i j, hwm1 m (by omega), hα1]
        · intro i j
          rw [hfb i j, hbm1 m (by omega), hα1]

theorem backProp_spec (labels : ℕ → ℕ) (net : NNetwork) (index : ℕ)
    (hWF : WF net) (h2 : 2 ≤ net.struct.length) :
    ∃ X CW CB net',
      net.backSignals ((Matrix.make (net.struct.getD (net.struct.length - 1) 0) 1
        (some 0) fun _ _ => 0).set (labels index) 0 1) = some (X, CW, CB) ∧
      net.backProp labels index = some net' ∧ WF net' ∧
      net'.struct = net.struct ∧ net'.α = net.α ∧
      net'.activations = net.activations ∧ net'.Z = net.Z ∧
      net'.layerCount = net.layerCount ∧
      (∀ m, net.struct.length - 1 ≤ m →
        idx net'.weights m = idx net.weights m ∧
        idx net'.biases m = idx net.biases m) ∧
      (∀ m, m < net.struct.length - 1 →
        (∀ i j, (idx net'.weights m).entry i j =
          (idx net.weights m).entry i j -
            (idx net.weights m).entry i j * net.α * (idx CW m).entry i j) ∧
        (∀ i j, (idx net'.biases m).entry i j =
          (idx net.biases m).entry i j -
            (idx net.biases m).entry i j * net.α * (idx CB m).entry i j)) := by
  set Y : Matrix := (Matrix.make (net.struct.getD (net.struct.length - 1) 0) 1
    (some 0) fun _ _ => 0).set (labels index) 0 1 with hY
  obtain ⟨X, CW, CB, heqs, hXlen, hCWlen, hCBlen, hXok, hGok⟩ :=
    backSignals_spec net Y hWF h2 rfl rfl
  have hshape : ∀ m, m < net.struct.length - 1 →
      (idx CW m).rows = net.struct.getD (m + 1) 0 ∧
      (idx CW m).cols = net.struct.getD m 0 ∧
      (idx CB m).rows = net.struct.getD (m + 1) 0 ∧ (idx CB m).cols = 1 := by
    intro m hm
    obtain ⟨⟨hcwr, hcwc, _⟩, ⟨hcbr, hcbc, _⟩⟩ := hGok m hm
    exact ⟨hcwr, hcwc, hcbr, hcbc⟩
  obtain ⟨net', heq', hWF', hs', hα', ha', hz', hlc', hunch', hform'⟩ :=
    updateLoop_spec (net.struct.length - 1) net CW CB 0 (net.struct.length - 1)
      hWF rfl hshape (by omega)
  refine ⟨X, CW, CB, net', heqs, ?_, hWF', hs', hα', ha', hz', hlc', ?_, ?_⟩
  · unfold NNetwork.backProp
    simp only [← hY, heqs]
    exact heq'
  · intro m hm
    exact hunch' m (by omega)
  · intro m hm
    exact hform' m (by omega) hm

theorem sigPrime_eq (x : ℝ) :
    sigPrime x = Real.exp (-x) / (1 + Real.exp (-x)) ^ 2 := by
  unfold sigPrime
  ring

/-- A tiny concrete network (structure `[1, 1]`, `Math.random()` streams
returning `0.6` for weights and `0.7` for biases) used by the witnesses. -/
def exNet : NNetwork := NNetwork.make [1, 1] (fun _ _ _ => 0.6) (fun _ _ _ => 0.7)

/-- A second concrete network (structure `[2, 2]`) used by witnesses. -/
def exNet2 : NNetwork := NNetwork.make [2, 2] (fun _ _ _ => 0.6) (fun _ _ _ => 0.7)

/-- C1: false on the code (code bug).  The spec and the code's own comment
say biases are zero-initialized, but the constructor calls
`new Matrix(sizes[l], 1)` with no fill value, so `Matrix.randomise` fills
the biases from `[-5, 5)`.  With `Math.random()` returning `0.7`, the
single bias entry of a `[1, 1]` network is `0.7 * 10 - 5 = 2`, not `0`
(while the weight entry, with `Math.random()` returning `0.6`, is indeed
`0.6 * 10 - 5 = 1 ∈ [-5, 5)` as claimed). -/
theorem claim1_bias_randomised :
    (idx exNet.biases 0).entry 0 0 = 2 ∧ (2 : ℝ) ≠ 0 ∧
    (idx exNet.weights 0).entry 0 0 = 1 := by
  refine ⟨?_, by norm_num, ?_⟩
  · show ((Matrix.make (([1, 1] : List ℕ).getD 1 0) 1 none
      ((fun _ _ _ => (0.7 : ℝ)) 0)).entry 0 0) = 2
    norm_num [Matrix.make]
  · show ((Matrix.make (([1, 1] : List ℕ).getD 1 0) (([1, 1] : List ℕ).getD 0 0) none
      ((fun _ _ _ => (0.6 : ℝ)) 0)).entry 0 0) = 1
    norm_num [Matrix.make]

/-- C2: `add`/`subtract`/`hadamard` fail (return the `false` indicator,
modelled `none`) exactly on a row- or column-count mismatch and otherwise
return a matrix of the operands' shape; `mult` fails exactly when the left
column count differs from the right row count and otherwise returns a
`(left.rows, right.cols)` matrix. -/
theorem claim2_shape_contracts (A B : Matrix) :
    (A.add B = none ↔ A.rows ≠ B.rows ∨ A.cols ≠ B.cols) ∧
    (A.subtract B = none ↔ A.rows ≠ B.rows ∨ A.cols ≠ B.cols) ∧
    (A.hadamard B = none ↔ A.rows ≠ B.rows ∨ A.cols ≠ B.cols) ∧
    (A.mult B = none ↔ A.cols ≠ B.rows) ∧
    (∀ C, A.add B = some C → C.rows = A.rows ∧ C.cols = A.cols) ∧
    (∀ C, A.subtract B = some C → C.rows = A.rows ∧ C.cols = A.cols) ∧
    (∀ C, A.hadamard B = some C → C.rows = A.rows ∧ C.cols = A.cols) ∧
    (∀ C, A.mult B = some C → C.rows = A.rows ∧ C.cols = B.cols) :=
  ⟨Matrix.add_eq_none_iff A B, Matrix.subtract_eq_none_iff A B,
    Matrix.hadamard_eq_none_iff A B, Matrix.mult_eq_none_iff A B,
    fun C h => Matrix.add_shape A B C h,
    fun C h => Matrix.subtract_shape A B C h,
    fun C h => Matrix.hadamard_shape A B C h,
    fun C h => Matrix.mult_shape A B C h⟩

theorem claim2_shape_contracts_witness :
    (Matrix.make 2 2 (some 0) (fun _ _ => 0)).add
      (Matrix.make 2 3 (some 1) (fun _ _ => 0)) = none ∧
    ((Matrix.make 2 3 (some 1) (fun _ _ => 0)).mult
      (Matrix.make 3 4 (some 2) (fun _ _ => 0))).isSome = true ∧
    (((Matrix.make 2 3 (some 1) (fun _ _ => 0)).mult
      (Matrix.make 3 4 (some 2) (fun _ _ => 0))).getD dummyMat).rows = 2 ∧
    (((Matrix.make 2 3 (some 1) (fun _ _ => 0)).mult
      (Matrix.make 3 4 (some 2) (fun _ _ => 0))).getD dummyMat).cols = 4 := by
  have h1 := claim2_shape_contracts (Matrix.make 2 2 (some 0) (fun _ _ => 0))
    (Matrix.make 2 3 (some 1) (fun _ _ => 0))
  have h2 := claim2_shape_contracts (Matrix.make 2 3 (some 1) (fun _ _ => 0))
    (Matrix.make 3 4 (some 2) (fun _ _ => 0))
  refine ⟨h1.1.mpr (Or.inr (by decide)), ?_⟩
  rcases hm : (Matrix.make 2 3 (some 1) (fun _ _ => 0)).mult
      (Matrix.make 3 4 (some 2) (fun _ _ => 0)) with _ | C
  · exact absurd (h2.2.2.2.1.mp hm) (by decide)
  · obtain ⟨hr, hc⟩ := h2.2.2.2.2.2.2.2 C hm
    exact ⟨rfl, by simpa using hr, by simpa using hc⟩

/-- C8: for every real input, `sigmoid(x) = 1/(1+e^(-x))` lies strictly
between `0` and `1`, and `sigmoid(0)` is exactly `0.5`. -/
theorem claim8_sigmoid_range :
    (∀ x : ℝ, 0 < sigmoid x ∧ sigmoid x < 1) ∧ sigmoid 0 = 0.5 := by
  constructor
  · intro x
    have hexp : 0 < Real.exp (-x) := Real.exp_pos _
    unfold sigmoid
    constructor
    · apply div_pos one_pos
      linarith
    · rw [div_lt_one (by linarith)]
      linarith
  · unfold sigmoid
    rw [neg_zero, Real.exp_zero]
    norm_num

/-- C10: `calculate(l)` with `l < 1` returns `false` and leaves the whole
network state (weights, biases, activations, Z and every other field)
unchanged. -/
theorem claim10_calculate_guard (net : NNetwork) (l : ℤ) (h : l < 1) :
    net.calculate l = some (false, net) := by
  unfold NNetwork.calculate
  rw [if_pos h]

theorem claim10_calculate_guard_witness :
    exNet.calculate (-3) = some (false, exNet) :=
  claim10_calculate_guard exNet (-3) (by decide)

/-- C3: after forward propagation on input sample `input`, layer 0 holds
the raw input values, and for every layer `l ≥ 1` the cached
`Z[l]` equals `weights[l-1] · activations[l-1] + biases[l-1]` (with the
activations produced in the same pass) while `activations[l]` is the
elementwise sigmoid `1/(1+e^(-x))` of `Z[l]`. -/
theorem claim3_forward_prop (imgData : ℕ → ℕ → ℝ) (net : NNetwork) (input : ℕ)
    (hWF : WF net) (hL : 1 ≤ net.struct.length) :
    ∃ net', net.forwardProp imgData input = some net' ∧
      (∀ i, i < net.struct.getD 0 0 →
        (idx net'.activations 0).entry i 0 = imgData input i) ∧
      (∀ l, 1 ≤ l → l < net.struct.length →
        (∀ i, (idx net'.Z l).entry i 0 =
          (∑ k in Finset.range (net.struct.getD (l - 1) 0),
            (idx net'.weights (l - 1)).entry i k *
              (idx net'.activations (l - 1)).entry k 0) +
          (idx net'.biases (l - 1)).entry i 0) ∧
        (∀ i j, (idx net'.activations l).entry i j =
          1 / (1 + Real.exp (-(idx net'.Z l).entry i j)))) := by
  obtain ⟨net', heq, hWF', hs', hw', hb', hα', hlc', hin, hform⟩ :=
    forwardProp_spec imgData net input hWF hL
  refine ⟨net', heq, ?_, ?_⟩
  · intro i hi
    rw [hin i 0, if_pos ⟨hi, rfl⟩]
  · intro l hl1 hl2
    obtain ⟨hz, ha⟩ := hform l hl1 hl2
    refine ⟨hz, ?_⟩
    intro i j
    rw [ha i j]
    rfl

/-- C4: during `backProp` with the one-hot target built from `desired`,
the error signal at the top layer `L = layers - 1` is
`X[L] = 2 (activations[L] - Y) ⊙ σ'(Z[L])`, and for `1 ≤ l < L`,
`X[l] = (weights[l]ᵗ · X[l+1]) ⊙ σ'(Z[l])`, where
`σ'(x) = e^(-x) / (1 + e^(-x))^2`. -/
theorem claim4_error_signals (net : NNetwork) (desired : ℕ) (hWF : WF net)
    (h2 : 2 ≤ net.struct.length)
    (hd : desired < net.struct.getD (net.struct.length - 1) 0) :
    ∃ X CW CB, net.backSignals ((Matrix.make
        (net.struct.getD (net.struct.length - 1) 0) 1 (some 0)
        fun _ _ => 0).set desired 0 1) = some (X, CW, CB) ∧
      (∀ i, (idx X (net.struct.length - 1)).entry i 0 =
        2 * ((idx net.activations (net.struct.length - 1)).entry i 0 -
            (if i = desired then 1 else 0)) *
          (Real.exp (-(idx net.Z (net.struct.length - 1)).entry i 0) /
            (1 + Real.exp (-(idx net.Z (net.struct.length - 1)).entry i 0)) ^ 2)) ∧
      (∀ l, 1 ≤ l → l < net.struct.length - 1 → ∀ i,
        (idx X l).entry i 0 =
          (∑ k in Finset.range (net.struct.getD (l + 1) 0),
            (idx net.weights l).entry k i * (idx X (l + 1)).entry k 0) *
            (Real.exp (-(idx net.Z l).entry i 0) /
              (1 + Real.exp (-(idx net.Z l).entry i 0)) ^ 2)) := by
  obtain ⟨X, CW, CB, heq, hXlen, hCWlen, hCBlen, hXok, hGok⟩ :=
    backSignals_spec net ((Matrix.make
      (net.struct.getD (net.struct.length - 1) 0) 1 (some 0)
      fun _ _ => 0).set desired 0 1) hWF h2 rfl rfl
  refine ⟨X, CW, CB, heq, ?_, ?_⟩
  · intro i
    obtain ⟨_, _, he⟩ := hXok (net.struct.length - 1) (le_refl _)
    have hi := he i
    rw [if_pos rfl] at hi
    rw [hi, ← sigPrime_eq]
    have hY : ((Matrix.make (net.struct.getD (net.struct.length - 1) 0) 1 (some 0)
        fun _ _ => 0).set desired 0 1).entry i 0 =
        if i = desired then 1 else 0 := by
      simp [Matrix.set, Matrix.make]
    rw [hY]
    ring
  · intro l hl1 hl2 i
    obtain ⟨_, _, he⟩ := hXok l (by omega)
    have hi := he i
    rw [if_neg (by omega)] at hi
    rw [hi, ← sigPrime_eq]

/-- C5: during `backProp`, for every layer `l < layers - 1` the computed
weight gradient is the outer product `CW[l] = X[l+1] · activations[l]ᵗ`
(of the same shape as `weights[l]`), and the bias gradient is the
Hadamard product `CB[l] = X[l+1] ⊙ biases[l]` with the current bias
vector — not `X[l+1]` itself. -/
theorem claim5_gradients (net : NNetwork) (desired : ℕ) (hWF : WF net)
    (h2 : 2 ≤ net.struct.length)
    (hd : desired < net.struct.getD (net.struct.length - 1) 0) :
    ∃ X CW CB, net.backSignals ((Matrix.make
        (net.struct.getD (net.struct.length - 1) 0) 1 (some 0)
        fun _ _ => 0).set desired 0 1) = some (X, CW, CB) ∧
      ∀ l, l < net.struct.length - 1 →
        (idx CW l).rows = net.struct.getD (l + 1) 0 ∧
        (idx CW l).cols = net.struct.getD l 0 ∧
        (∀ i j, (idx CW l).entry i j =
          (idx X (l + 1)).entry i 0 * (idx net.activations l).entry j 0) ∧
        (∀ i, (idx CB l).entry i 0 =
          (idx X (l + 1)).entry i 0 * (idx net.biases l).entry i 0) := by
  obtain ⟨X, CW, CB, heq, hXlen, hCWlen, hCBlen, hXok, hGok⟩ :=
    backSignals_spec net ((Matrix.make
      (net.struct.getD (net.struct.length - 1) 0) 1 (some 0)
      fun _ _ => 0).set desired 0 1) hWF h2 rfl rfl
  refine ⟨X, CW, CB, heq, ?_⟩
  intro l hl
  obtain ⟨⟨hcwr, hcwc, hcwe⟩, ⟨_, _, hcbe⟩⟩ := hGok l hl
  exact ⟨hcwr, hcwc, hcwe, hcbe⟩

/-- C6: the update loop at the end of `backProp` performs the
multiplicative Hadamard update
`weights[l] ← weights[l] - α * (weights[l] ⊙ CW[l])` and
`biases[l] ← biases[l] - α * (biases[l] ⊙ CB[l])` for every layer
`l < layers - 1`, and changes no other field of the network. -/
theorem claim6_update_rule (net : NNetwork) (CW CB : List Matrix) (hWF : WF net)
    (hshape : ∀ m, m < net.struct.length - 1 →
      (idx CW m).rows = net.struct.getD (m + 1) 0 ∧
      (idx CW m).cols = net.struct.getD m 0 ∧
      (idx CB m).rows = net.struct.getD (m + 1) 0 ∧ (idx CB m).cols = 1) :
    ∃ net', net.updateLoop CW CB 0 (net.struct.length - 1) = some net' ∧
      (∀ l, l < net.struct.length - 1 →
        (∀ i j, (idx net'.weights l).entry i j =
          (idx net.weights l).entry i j -
            net.α * ((idx net.weights l).entry i j * (idx CW l).entry i j)) ∧
        (∀ i j, (idx net'.biases l).entry i j =
          (idx net.biases l).entry i j -
            net.α * ((idx net.biases l).entry i j * (idx CB l).entry i j))) ∧
      net'.struct = net.struct ∧ net'.α = net.α ∧
      net'.activations = net.activations ∧ net'.Z = net.Z ∧
      net'.layerCount = net.layerCount := by
  obtain ⟨net', heq, hWF', hs', hα', ha', hz', hlc', hunch, hform⟩ :=
    updateLoop_spec (net.struct.length - 1) net CW CB 0 (net.struct.length - 1)
      hWF rfl hshape (by omega)
  refine ⟨net', heq, ?_, hs', hα', ha', hz', hlc'⟩
  intro l hl
  obtain ⟨hw, hb⟩ := hform l (by omega) hl
  constructor
  · intro i j
    rw [hw i j]
    ring
  · intro i j
    rw [hb i j]
    ring

/-- C7: `getCost(y)` returns the mean squared error
`(1/n) * Σ (activations[L-1][i] - y[i])^2` over the output layer
(`n = structure[L-1]`), and it returns exactly `0` when the output
activations equal `y` entry for entry. -/
theorem claim7_cost (net : NNetwork) (y : Matrix)
    (hyr : y.rows = net.struct.getD (net.struct.length - 1) 0)
    (hyc : y.cols = 1) :
    net.getCost y =
      (1 / ((net.struct.getD (net.struct.length - 1) 0 : ℕ) : ℝ)) *
        ∑ i in Finset.range (net.struct.getD (net.struct.length - 1) 0),
          ((idx net.activations (net.struct.length - 1)).entry i 0 -
            y.entry i 0) ^ 2 ∧
    ((∀ i, i < net.struct.getD (net.struct.length - 1) 0 →
        (idx net.activations (net.struct.length - 1)).entry i 0 = y.entry i 0) →
      net.getCost y = 0) := by
  constructor
  · show (∑ n in Finset.range (net.struct.getD (net.struct.length - 1) 0),
        ((idx net.activations (net.struct.length - 1)).entry n 0 - y.entry n 0) *
          ((idx net.activations (net.struct.length - 1)).entry n 0 - y.entry n 0)) /
        ((net.struct.getD (net.struct.length - 1) 0 : ℕ) : ℝ) = _
    rw [one_div_mul_eq_div]
    congr 1
    exact Finset.sum_congr rfl fun i _ => (pow_two _).symm
  · intro h
    show (∑ n in Finset.range (net.struct.getD (net.struct.length - 1) 0),
        ((idx net.activations (net.struct.length - 1)).entry n 0 - y.entry n 0) *
          ((idx net.activations (net.struct.length - 1)).entry n 0 - y.entry n 0)) /
        ((net.struct.getD (net.struct.length - 1) 0 : ℕ) : ℝ) = 0
    rw [Finset.sum_eq_zero, zero_div]
    intro i hi
    rw [h i (Finset.mem_range.mp hi)]
    ring

/-- C9: the shape invariant
(`weights[l].rows = biases[l].rows = structure[l+1]`,
`weights[l].cols = structure[l]`, `biases[l].cols = 1`) holds after
construction, and full well-formedness (which contains it) is preserved
by a successful forward pass and by a successful
backward-propagation/update cycle. -/
theorem claim9_shape_invariant :
    (∀ (sizes : List ℕ) (wRng bRng : ℕ → ℕ → ℕ → ℝ),
      ShapeInv (NNetwork.make sizes wRng bRng)) ∧
    (∀ (imgData : ℕ → ℕ → ℝ) (net : NNetwork) (input : ℕ) (net' : NNetwork),
      WF net → 1 ≤ net.struct.length →
      net.forwardProp imgData input = some net' → ShapeInv net' ∧ WF net') ∧
    (∀ (labels : ℕ → ℕ) (net : NNetwork) (index : ℕ) (net' : NNetwork),
      WF net → 2 ≤ net.struct.length →
      net.backProp labels index = some net' → ShapeInv net' ∧ WF net') := by
  refine ⟨fun sizes wRng bRng => (make_WF sizes wRng bRng).1, ?_, ?_⟩
  · intro imgData net input net' hWF hL heq
    obtain ⟨net'', heq'', hWF'', _⟩ := forwardProp_spec imgData net input hWF hL
    rw [heq] at heq''
    obtain rfl := Option.some.inj heq''
    exact ⟨hWF''.1, hWF''⟩
  · intro labels net index net' hWF h2 heq
    obtain ⟨X, CW, CB, net'', _, heq'', hWF'', _⟩ :=
      backProp_spec labels net index hWF h2
    rw [heq] at heq''
    obtain rfl := Option.some.inj heq''
    exact ⟨hWF''.1, hWF''⟩

theorem claim3_forward_prop_witness :
    ((exNet.forwardProp (fun _ _ => 0.3) 0).isSome = true) ∧
    (idx ((exNet.forwardProp (fun _ _ => 0.3) 0).getD exNet).activations 0).entry 0 0 =
      0.3 := by
  obtain ⟨net', heq, hin, _⟩ :=
    claim3_forward_prop (fun _ _ => 0.3) exNet 0 (make_WF _ _ _) (by decide)
  rw [heq]
  exact ⟨rfl, by rw [Option.getD_some]; exact hin 0 (by decide)⟩

theorem claim4_error_signals_witness :
    (exNet.backSignals ((Matrix.make
      (exNet.struct.getD (exNet.struct.length - 1) 0) 1 (some 0)
      fun _ _ => 0).set 0 0 1)).isSome = true := by
  obtain ⟨X, CW, CB, heq, _, _⟩ :=
    claim4_error_signals exNet 0 (make_WF _ _ _) (by decide) (by decide)
  rw [heq]
  rfl

theorem claim5_gradients_witness :
    (exNet2.backSignals ((Matrix.make
      (exNet2.struct.getD (exNet2.struct.length - 1) 0) 1 (some 0)
      fun _ _ => 0).set 0 0 1)).isSome = true := by
  obtain ⟨X, CW, CB, heq, _⟩ :=
    claim5_gradients exNet2 0 (make_WF _ _ _) (by decide) (by decide)
  rw [heq]
  rfl

theorem claim6_update_rule_witness :
    ((exNet.updateLoop [Matrix.make 1 1 (some 2) fun _ _ => 0]
      [Matrix.make 1 1 (some 3) fun _ _ => 0] 0
      (exNet.struct.length - 1)).isSome = true) ∧
    ((exNet.updateLoop [Matrix.make 1 1 (some 2) fun _ _ => 0]
      [Matrix.make 1 1 (some 3) fun _ _ => 0] 0
      (exNet.struct.length - 1)).getD exNet).activations =
      exNet.activations := by
  have hsh : ∀ m, m < exNet.struct.length - 1 →
      (idx [Matrix.make 1 1 (some 2) fun _ _ => (0 : ℝ)] m).rows =
        exNet.struct.getD (m + 1) 0 ∧
      (idx [Matrix.make 1 1 (some 2) fun _ _ => (0 : ℝ)] m).cols =
        exNet.struct.getD m 0 ∧
      (idx [Matrix.make 1 1 (some 3) fun _ _ => (0 : ℝ)] m).rows =
        exNet.struct.getD (m + 1) 0 ∧
      (idx [Matrix.make 1 1 (some 3) fun _ _ => (0 : ℝ)] m).cols = 1 := by
    intro m hm
    have hm' : m < 1 := hm
    have hm0 : m = 0 := by omega
    subst hm0
    exact ⟨rfl, rfl, rfl, rfl⟩
  obtain ⟨net', heq, _, _, _, ha, _, _⟩ :=
    claim6_update_rule exNet [Matrix.make 1 1 (some 2) fun _ _ => 0]
      [Matrix.make 1 1 (some 3) fun _ _ => 0] (make_WF _ _ _) hsh
  rw [heq]
  exact ⟨rfl, by rw [Option.getD_some]; exact ha⟩

theorem claim7_cost_witness :
    exNet.getCost (Matrix.make 1 1 (some 0) fun _ _ => 0) = 0 := by
  have h := claim7_cost exNet (Matrix.make 1 1 (some 0) fun _ _ => 0) rfl rfl
  exact h.2 fun i hi => rfl

theorem claim9_shape_invariant_witness :
    ShapeInv exNet ∧ WF ((exNet.forwardProp (fun _ _ => 0.2) 0).getD exNet) := by
  constructor
  · exact claim9_shape_invariant.1 [1, 1] (fun _ _ _ => 0.6) (fun _ _ _ => 0.7)
  · obtain ⟨net', heq, _⟩ :=
      forwardProp_spec (fun _ _ => 0.2) exNet 0 (make_WF _ _ _) (by decide)
    have h := (claim9_shape_invariant.2.1 (fun _ _ => 0.2) exNet 0 net'
      (make_WF _ _ _) (by decide) heq).2
    rw [heq, Option.getD_some]
    exact h

end JS
